import Mathlib

/-!
Shallow embedding of the Mancala rules engine of this repository
(file `src/game-state.js`, class `GameState`: constructor, `getStonesAt`,
`setStonesAt`, `isValidMove`, `performMove`, `simulateMove`), followed by
theorems checking the specification claims against it.

Players are JS numbers, embedded as `Int` (the engine keeps the field
`currentPlayer` at 1 or 2, but `getStonesAt` and `setStonesAt` accept any
player value and route every value other than 1 to the row of player 2,
exactly as the JS conditional `player === 1 ? b1 : b2` does).  Pit rows are
embedded as lists of stone counts.  The sowing loop of `performMove` is
instrumented with a ghost trace recording each deposit (pit deposits and
store deposits) in execution order; the trace is output only and never
influences the computed state.
-/

/-- One touched-cell record, as pushed by `simulateMove`: owning player,
pit index (the sentinel -1 for a store deposit) and the store marker
`isMancala`.  The same record type is used for the ghost deposit trace of
the sowing loop of `performMove`. -/
structure Cell where
  player : Int
  position : Int
  isMancala : Bool
deriving Repr, DecidableEq

/-- The fields of the JS `GameState` object: the two constructor arguments
`dimensions` and `pocketsPerSide`, the `currentPlayer` number, the two pit
rows (`player1Board` and `player2Board`, mathjs vectors of stone counts)
and the two store counts (`mancalas.player1` and `mancalas.player2`). -/
structure GameState where
  dimensions : Nat
  pocketsPerSide : Nat
  currentPlayer : Int
  board1 : List Nat
  board2 : List Nat
  mancala1 : Nat
  mancala2 : Nat
deriving Repr, DecidableEq

/-- Field update helper: replace the row of player 1. -/
def setBoard1 (g : GameState) (b : List Nat) : GameState :=
  ⟨g.dimensions, g.pocketsPerSide, g.currentPlayer, b, g.board2, g.mancala1, g.mancala2⟩

/-- Field update helper: replace the row of player 2. -/
def setBoard2 (g : GameState) (b : List Nat) : GameState :=
  ⟨g.dimensions, g.pocketsPerSide, g.currentPlayer, g.board1, b, g.mancala1, g.mancala2⟩

/-- Field update helper: replace the store count of player 1. -/
def setMancala1 (g : GameState) (m : Nat) : GameState :=
  ⟨g.dimensions, g.pocketsPerSide, g.currentPlayer, g.board1, g.board2, m, g.mancala2⟩

/-- Field update helper: replace the store count of player 2. -/
def setMancala2 (g : GameState) (m : Nat) : GameState :=
  ⟨g.dimensions, g.pocketsPerSide, g.currentPlayer, g.board1, g.board2, g.mancala1, m⟩

/-- Field update helper: replace the turn marker. -/
def setCurrentPlayer (g : GameState) (p : Int) : GameState :=
  ⟨g.dimensions, g.pocketsPerSide, p, g.board1, g.board2, g.mancala1, g.mancala2⟩

/-- The constant `initialStones = 4` that the private initialisation step of
the constructor fixes for every pit. -/
def initialStones : Nat := 4

/-- The JS constructor `new GameState(dimensions, pocketsPerSide)`: both rows
are filled with `initialStones`, both stores are 0 and `currentPlayer` is 1. -/
def construct (dimensions pocketsPerSide : Nat) : GameState :=
  ⟨dimensions, pocketsPerSide, 1,
    List.replicate pocketsPerSide initialStones,
    List.replicate pocketsPerSide initialStones, 0, 0⟩

/-- `getStonesAt(player, position)`: the JS conditional
`player === 1 ? player1Board : player2Board` followed by `board.get([position])`.
Every read performed by the engine is in range, so the out-of-range default 0
of `List.getD` is never observed by the engine itself. -/
def getStonesAt (g : GameState) (player : Int) (position : Nat) : Nat :=
  if player = 1 then g.board1.getD position 0 else g.board2.getD position 0

/-- `setStonesAt(player, position, count)`: the JS conditional
`player === 1 ? player1Board : player2Board` followed by
`board._data[position] = count`.  Every write performed by the engine is in
range, so the out-of-range no-op of `List.set` is never hit by the engine. -/
def setStonesAt (g : GameState) (player : Int) (position : Nat) (count : Nat) : GameState :=
  if player = 1 then setBoard1 g (g.board1.set position count)
  else setBoard2 g (g.board2.set position count)

/-- The JS expression `currentPlayer === 1 ? 2 : 1` used to switch rows and
to flip the turn marker. -/
def flipPlayer (p : Int) : Int :=
  if p = 1 then 2 else 1

/-- The JS increment `this.mancalas[player...]++` and the capture update
`this.mancalas[player...] += capturedStones`, merged into one helper adding
`k` stones to the store of player `p`.  The engine only ever passes 1 or 2
here (the turn marker and its flip), so the final else arm is unreachable
from the engine. -/
def addMancala (p : Int) (k : Nat) (g : GameState) : GameState :=
  if p = 1 then setMancala1 g (g.mancala1 + k)
  else if p = 2 then setMancala2 g (g.mancala2 + k)
  else g

/-- `isValidMove(position)`: false when `position < 0` or
`position >= pocketsPerSide`, otherwise true iff the pit of the current
player at `position` holds more than 0 stones. -/
def isValidMove (g : GameState) (position : Int) : Bool :=
  if position < 0 ∨ (g.pocketsPerSide : Int) ≤ position then false
  else decide (0 < getStonesAt g g.currentPlayer position.toNat)

/-- The capture block of `performMove` (lines 121 to 135 of
`game-state.js`), run when the last stone was just placed in the pit
`pos` of the cursor player `cp` and `cp` equals the mover: if the pit now
holds exactly 1 stone and the opposite pit `P - 1 - pos` of the other player
is non-empty, zero both pits and add their joint contents (the opposite
stones plus the landing stone) to the store of `cp`. -/
def captureStep (P : Nat) (cp : Int) (pos : Nat) (g : GameState) : GameState :=
  if getStonesAt g cp pos = 1 then
    let oppositeStones := getStonesAt g (flipPlayer cp) (P - 1 - pos)
    if 0 < oppositeStones then
      addMancala cp (oppositeStones + 1)
        (setStonesAt (setStonesAt g (flipPlayer cp) (P - 1 - pos) 0) cp pos 0)
    else g
  else g

/-- Result of the sowing `while` loop of `performMove`: the updated state,
the final values of the loop variables `currentPlayer` and `currentPos`,
the flag `lastStoneInMancala`, and the ghost trace of deposits in order. -/
structure SowResult where
  state : GameState
  lastPlayer : Int
  lastPos : Nat
  lastStoneInMancala : Bool
  trace : List Cell
deriving Repr, DecidableEq

/-- The `while (stones > 0)` loop of `performMove`, recursing on the number
of stones still in hand.  Each iteration advances `currentPos`; at a row
boundary the mover (and only the mover) receives a store deposit, possibly
ending the move with `lastStoneInMancala`, and otherwise the cursor switches
rows and falls through to place a stone at index 0; away from a boundary one
stone is placed in the next pit.  When the last stone has just been placed
in a pit and the cursor player equals the mover the capture block runs.
The trace records each deposit exactly where the JS code mutates a cell. -/
def sowLoop (P : Nat) (mover : Int) : Nat → Int → Nat → GameState → SowResult
  | 0, cp, pos, g => ⟨g, cp, pos, false, []⟩
  | Nat.succ n, cp, pos, g =>
    if P ≤ pos + 1 then
      if cp = mover then
        let g1 := addMancala cp 1 g
        match n with
        | 0 =>
          ⟨g1, cp, pos + 1, true, [⟨cp, -1, true⟩]⟩
        | Nat.succ m =>
          let g2 := setStonesAt g1 (flipPlayer cp) 0 (getStonesAt g1 (flipPlayer cp) 0 + 1)
          if m = 0 then
            ⟨(if flipPlayer cp = mover then captureStep P (flipPlayer cp) 0 g2 else g2),
              flipPlayer cp, 0, false, [⟨cp, -1, true⟩, ⟨flipPlayer cp, 0, false⟩]⟩
          else
            let r := sowLoop P mover m (flipPlayer cp) 0 g2
            ⟨r.state, r.lastPlayer, r.lastPos, r.lastStoneInMancala,
              ⟨cp, -1, true⟩ :: ⟨flipPlayer cp, 0, false⟩ :: r.trace⟩
      else
        let g2 := setStonesAt g (flipPlayer cp) 0 (getStonesAt g (flipPlayer cp) 0 + 1)
        if n = 0 then
          ⟨(if flipPlayer cp = mover then captureStep P (flipPlayer cp) 0 g2 else g2),
            flipPlayer cp, 0, false, [⟨flipPlayer cp, 0, false⟩]⟩
        else
          let r := sowLoop P mover n (flipPlayer cp) 0 g2
          ⟨r.state, r.lastPlayer, r.lastPos, r.lastStoneInMancala,
            ⟨flipPlayer cp, 0, false⟩ :: r.trace⟩
    else
      let g2 := setStonesAt g cp (pos + 1) (getStonesAt g cp (pos + 1) + 1)
      if n = 0 then
        ⟨(if cp = mover then captureStep P cp (pos + 1) g2 else g2),
          cp, pos + 1, false, [⟨cp, ((pos + 1 : Nat) : Int), false⟩]⟩
      else
        let r := sowLoop P mover n cp (pos + 1) g2
        ⟨r.state, r.lastPlayer, r.lastPos, r.lastStoneInMancala,
          ⟨cp, ((pos + 1 : Nat) : Int), false⟩ :: r.trace⟩

/-- The same sowing loop without the capture block.  Used to express the
capture law: `sowLoop` equals `sowOnly` followed by one capture check on the
landing cell (lemma `sowLoop_eq_sowOnly`). -/
def sowOnly (P : Nat) (mover : Int) : Nat → Int → Nat → GameState → SowResult
  | 0, cp, pos, g => ⟨g, cp, pos, false, []⟩
  | Nat.succ n, cp, pos, g =>
    if P ≤ pos + 1 then
      if cp = mover then
        let g1 := addMancala cp 1 g
        match n with
        | 0 =>
          ⟨g1, cp, pos + 1, true, [⟨cp, -1, true⟩]⟩
        | Nat.succ m =>
          let g2 := setStonesAt g1 (flipPlayer cp) 0 (getStonesAt g1 (flipPlayer cp) 0 + 1)
          if m = 0 then
            ⟨g2, flipPlayer cp, 0, false, [⟨cp, -1, true⟩, ⟨flipPlayer cp, 0, false⟩]⟩
          else
            let r := sowOnly P mover m (flipPlayer cp) 0 g2
            ⟨r.state, r.lastPlayer, r.lastPos, r.lastStoneInMancala,
              ⟨cp, -1, true⟩ :: ⟨flipPlayer cp, 0, false⟩ :: r.trace⟩
      else
        let g2 := setStonesAt g (flipPlayer cp) 0 (getStonesAt g (flipPlayer cp) 0 + 1)
        if n = 0 then
          ⟨g2, flipPlayer cp, 0, false, [⟨flipPlayer cp, 0, false⟩]⟩
        else
          let r := sowOnly P mover n (flipPlayer cp) 0 g2
          ⟨r.state, r.lastPlayer, r.lastPos, r.lastStoneInMancala,
            ⟨flipPlayer cp, 0, false⟩ :: r.trace⟩
    else
      let g2 := setStonesAt g cp (pos + 1) (getStonesAt g cp (pos + 1) + 1)
      if n = 0 then
        ⟨g2, cp, pos + 1, false, [⟨cp, ((pos + 1 : Nat) : Int), false⟩]⟩
      else
        let r := sowOnly P mover n cp (pos + 1) g2
        ⟨r.state, r.lastPlayer, r.lastPos, r.lastStoneInMancala,
          ⟨cp, ((pos + 1 : Nat) : Int), false⟩ :: r.trace⟩

/-- Result of `performMove`: the state after the move, the returned boolean
(`lastStoneInMancala`, whether the mover keeps the turn) and the ghost
deposit trace of the sowing loop. -/
structure MoveResult where
  state : GameState
  keepsTurn : Bool
  trace : List Cell
deriving Repr, DecidableEq

/-- `performMove(position)`: an invalid position returns false at once with
no state change; otherwise all stones of the chosen pit are picked up, the
pit is zeroed, the sowing loop runs (capture included), and the turn marker
flips unless the last stone landed in the store of the mover. -/
def performMove (g : GameState) (position : Int) : MoveResult :=
  if isValidMove g position = false then ⟨g, false, []⟩
  else
    let mover := g.currentPlayer
    let pos := position.toNat
    let stones := getStonesAt g mover pos
    let g1 := setStonesAt g mover pos 0
    let r := sowLoop g.pocketsPerSide mover stones mover pos g1
    let g2 := if r.lastStoneInMancala then r.state
              else setCurrentPlayer r.state (flipPlayer r.state.currentPlayer)
    ⟨g2, r.lastStoneInMancala, r.trace⟩

/-- The `for` loop of `simulateMove`, one iteration per stone, pushing one
cell record per iteration.  `currentPos` is a JS number that is set to -1
after a store record, so it is embedded as `Int`. -/
def simLoop (P : Nat) (mover : Int) : Nat → Int → Int → List Cell
  | 0, _, _ => []
  | Nat.succ i, cp, pos =>
    if (P : Int) ≤ pos + 1 then
      if cp = mover then
        ⟨cp, -1, true⟩ :: simLoop P mover i (flipPlayer cp) (-1)
      else
        ⟨flipPlayer cp, 0, false⟩ :: simLoop P mover i (flipPlayer cp) 0
    else
      ⟨cp, pos + 1, false⟩ :: simLoop P mover i cp (pos + 1)

/-- `simulateMove(position)`: an invalid position yields the empty sequence;
otherwise the stone count of the chosen pit is read and the read-only replay
loop produces one touched-cell record per stone. -/
def simulateMove (g : GameState) (position : Int) : List Cell :=
  if isValidMove g position = false then []
  else
    simLoop g.pocketsPerSide g.currentPlayer
      (getStonesAt g g.currentPlayer position.toNat) g.currentPlayer position

/-- Total stone count of a state: both pit rows plus both stores. -/
def total (g : GameState) : Nat :=
  g.board1.sum + g.board2.sum + g.mancala1 + g.mancala2

/-- The store count of a player, the query `storeCount(player)` of the
specification (the JS lookup `mancalas[player...]`, queried only at 1 or 2). -/
def storeCount (g : GameState) (p : Int) : Nat :=
  if p = 1 then g.mancala1 else g.mancala2

/-- Well-formed states: both rows have length `pocketsPerSide` and the turn
marker is 1 or 2.  Every state the engine produces from the constructor has
this shape. -/
def WF (g : GameState) : Prop :=
  g.board1.length = g.pocketsPerSide ∧ g.board2.length = g.pocketsPerSide ∧
    (g.currentPlayer = 1 ∨ g.currentPlayer = 2)

instance (g : GameState) : Decidable (WF g) := by
  unfold WF; infer_instance

/-- A list of positions is a sequence of legal moves from `g` when each one
is accepted by `isValidMove` in the state reached after the earlier ones. -/
def movesValid : GameState → List Int → Bool
  | _, [] => true
  | g, p :: ps => isValidMove g p && movesValid (performMove g p).state ps

/-- Apply a list of moves with `performMove`, threading the state. -/
def applyMoves (g : GameState) (ms : List Int) : GameState :=
  ms.foldl (fun h p => (performMove h p).state) g

/-! ### Helper lemmas about the primitive state operations -/

theorem sum_set_getD_succ :
    ∀ (l : List Nat) (i : Nat), i < l.length →
      (l.set i (l.getD i 0 + 1)).sum = l.sum + 1 := by
  intro l
  induction l with
  | nil => intro i h; simp at h
  | cons a t ih =>
    intro i h
    cases i with
    | zero =>
      simp only [List.getD_cons_zero, List.set_cons_zero, List.sum_cons]
      omega
    | succ j =>
      have hj : j < t.length := by simpa using h
      simp only [List.getD_cons_succ, List.set_cons_succ, List.sum_cons, ih j hj]
      omega

theorem sum_set_zero_getD :
    ∀ (l : List Nat) (i : Nat), i < l.length →
      (l.set i 0).sum + l.getD i 0 = l.sum := by
  intro l
  induction l with
  | nil => intro i h; simp at h
  | cons a t ih =>
    intro i h
    cases i with
    | zero =>
      simp only [List.getD_cons_zero, List.set_cons_zero, List.sum_cons]
      omega
    | succ j =>
      have hj : j < t.length := by simpa using h
      simp only [List.getD_cons_succ, List.set_cons_succ, List.sum_cons]
      have := ih j hj
      omega

@[simp] theorem setStonesAt_dimensions (g : GameState) (p : Int) (i c : Nat) :
    (setStonesAt g p i c).dimensions = g.dimensions := by
  unfold setStonesAt setBoard1 setBoard2; split <;> rfl

@[simp] theorem setStonesAt_pocketsPerSide (g : GameState) (p : Int) (i c : Nat) :
    (setStonesAt g p i c).pocketsPerSide = g.pocketsPerSide := by
  unfold setStonesAt setBoard1 setBoard2; split <;> rfl

@[simp] theorem setStonesAt_currentPlayer (g : GameState) (p : Int) (i c : Nat) :
    (setStonesAt g p i c).currentPlayer = g.currentPlayer := by
  unfold setStonesAt setBoard1 setBoard2; split <;> rfl

@[simp] theorem setStonesAt_mancala1 (g : GameState) (p : Int) (i c : Nat) :
    (setStonesAt g p i c).mancala1 = g.mancala1 := by
  unfold setStonesAt setBoard1 setBoard2; split <;> rfl

@[simp] theorem setStonesAt_mancala2 (g : GameState) (p : Int) (i c : Nat) :
    (setStonesAt g p i c).mancala2 = g.mancala2 := by
  unfold setStonesAt setBoard1 setBoard2; split <;> rfl

@[simp] theorem setStonesAt_length_board1 (g : GameState) (p : Int) (i c : Nat) :
    (setStonesAt g p i c).board1.length = g.board1.length := by
  unfold setStonesAt setBoard1 setBoard2; split <;> simp

@[simp] theorem setStonesAt_length_board2 (g : GameState) (p : Int) (i c : Nat) :
    (setStonesAt g p i c).board2.length = g.board2.length := by
  unfold setStonesAt setBoard1 setBoard2; split <;> simp

@[simp] theorem addMancala_dimensions (p : Int) (k : Nat) (g : GameState) :
    (addMancala p k g).dimensions = g.dimensions := by
  unfold addMancala setMancala1 setMancala2; split <;> [rfl; split <;> rfl]

@[simp] theorem addMancala_pocketsPerSide (p : Int) (k : Nat) (g : GameState) :
    (addMancala p k g).pocketsPerSide = g.pocketsPerSide := by
  unfold addMancala setMancala1 setMancala2; split <;> [rfl; split <;> rfl]

@[simp] theorem addMancala_currentPlayer (p : Int) (k : Nat) (g : GameState) :
    (addMancala p k g).currentPlayer = g.currentPlayer := by
  unfold addMancala setMancala1 setMancala2; split <;> [rfl; split <;> rfl]

@[simp] theorem addMancala_board1 (p : Int) (k : Nat) (g : GameState) :
    (addMancala p k g).board1 = g.board1 := by
  unfold addMancala setMancala1 setMancala2; split <;> [rfl; split <;> rfl]

@[simp] theorem addMancala_board2 (p : Int) (k : Nat) (g : GameState) :
    (addMancala p k g).board2 = g.board2 := by
  unfold addMancala setMancala1 setMancala2; split <;> [rfl; split <;> rfl]

theorem addMancala_mancala1_of_ne (p : Int) (k : Nat) (g : GameState) (h : p ≠ 1) :
    (addMancala p k g).mancala1 = g.mancala1 := by
  by_cases h2 : p = 2
  · simp [addMancala, setMancala2, h, h2]
  · simp [addMancala, setMancala1, setMancala2, h, h2]

theorem addMancala_mancala2_of_ne (p : Int) (k : Nat) (g : GameState) (h : p ≠ 2) :
    (addMancala p k g).mancala2 = g.mancala2 := by
  by_cases h1 : p = 1
  · simp [addMancala, setMancala1, h1]
  · simp [addMancala, setMancala1, setMancala2, h, h1]

@[simp] theorem captureStep_dimensions (P : Nat) (cp : Int) (pos : Nat) (g : GameState) :
    (captureStep P cp pos g).dimensions = g.dimensions := by
  unfold captureStep; dsimp only; split_ifs <;> simp

@[simp] theorem captureStep_pocketsPerSide (P : Nat) (cp : Int) (pos : Nat) (g : GameState) :
    (captureStep P cp pos g).pocketsPerSide = g.pocketsPerSide := by
  unfold captureStep; dsimp only; split_ifs <;> simp

@[simp] theorem captureStep_currentPlayer (P : Nat) (cp : Int) (pos : Nat) (g : GameState) :
    (captureStep P cp pos g).currentPlayer = g.currentPlayer := by
  unfold captureStep; dsimp only; split_ifs <;> simp

@[simp] theorem captureStep_length_board1 (P : Nat) (cp : Int) (pos : Nat) (g : GameState) :
    (captureStep P cp pos g).board1.length = g.board1.length := by
  unfold captureStep; dsimp only; split_ifs <;> simp

@[simp] theorem captureStep_length_board2 (P : Nat) (cp : Int) (pos : Nat) (g : GameState) :
    (captureStep P cp pos g).board2.length = g.board2.length := by
  unfold captureStep; dsimp only; split_ifs <;> simp

theorem captureStep_mancala1_of_ne (P : Nat) (cp : Int) (pos : Nat) (g : GameState)
    (h : cp ≠ 1) : (captureStep P cp pos g).mancala1 = g.mancala1 := by
  unfold captureStep
  dsimp only
  split_ifs <;> simp [addMancala_mancala1_of_ne _ _ _ h]

theorem captureStep_mancala2_of_ne (P : Nat) (cp : Int) (pos : Nat) (g : GameState)
    (h : cp ≠ 2) : (captureStep P cp pos g).mancala2 = g.mancala2 := by
  unfold captureStep
  dsimp only
  split_ifs <;> simp [addMancala_mancala2_of_ne _ _ _ h]

@[simp] theorem setCurrentPlayer_board1 (g : GameState) (p : Int) :
    (setCurrentPlayer g p).board1 = g.board1 := rfl

@[simp] theorem setCurrentPlayer_board2 (g : GameState) (p : Int) :
    (setCurrentPlayer g p).board2 = g.board2 := rfl

@[simp] theorem setCurrentPlayer_mancala1 (g : GameState) (p : Int) :
    (setCurrentPlayer g p).mancala1 = g.mancala1 := rfl

@[simp] theorem setCurrentPlayer_mancala2 (g : GameState) (p : Int) :
    (setCurrentPlayer g p).mancala2 = g.mancala2 := rfl

@[simp] theorem setCurrentPlayer_dimensions (g : GameState) (p : Int) :
    (setCurrentPlayer g p).dimensions = g.dimensions := rfl

@[simp] theorem setCurrentPlayer_pocketsPerSide (g : GameState) (p : Int) :
    (setCurrentPlayer g p).pocketsPerSide = g.pocketsPerSide := rfl

@[simp] theorem setCurrentPlayer_currentPlayer (g : GameState) (p : Int) :
    (setCurrentPlayer g p).currentPlayer = p := rfl

/-! ### One-step equation lemmas for the two sowing loops -/

theorem sowLoop_zero (P : Nat) (mover cp : Int) (pos : Nat) (g : GameState) :
    sowLoop P mover 0 cp pos g = ⟨g, cp, pos, false, []⟩ := rfl

theorem sowLoop_one_pit (P : Nat) (mover cp : Int) (pos : Nat) (g : GameState)
    (h : ¬ P ≤ pos + 1) :
    sowLoop P mover 1 cp pos g =
      ⟨(if cp = mover then
          captureStep P cp (pos + 1)
            (setStonesAt g cp (pos + 1) (getStonesAt g cp (pos + 1) + 1))
        else setStonesAt g cp (pos + 1) (getStonesAt g cp (pos + 1) + 1)),
        cp, pos + 1, false, [⟨cp, ((pos + 1 : Nat) : Int), false⟩]⟩ := by
  simp [sowLoop, h]

theorem sowLoop_succ_pit (P : Nat) (mover cp : Int) (pos n : Nat) (g : GameState)
    (h : ¬ P ≤ pos + 1) (hn : n ≠ 0) :
    sowLoop P mover (n + 1) cp pos g =
      { sowLoop P mover n cp (pos + 1)
          (setStonesAt g cp (pos + 1) (getStonesAt g cp (pos + 1) + 1)) with
        trace := ⟨cp, ((pos + 1 : Nat) : Int), false⟩ ::
          (sowLoop P mover n cp (pos + 1)
            (setStonesAt g cp (pos + 1) (getStonesAt g cp (pos + 1) + 1))).trace } := by
  rcases n with _ | m
  · exact absurd rfl hn
  · simp [sowLoop, h]

theorem sowLoop_one_boundary_nonmover (P : Nat) (mover cp : Int) (pos : Nat) (g : GameState)
    (h : P ≤ pos + 1) (hc : ¬ cp = mover) :
    sowLoop P mover 1 cp pos g =
      ⟨(if flipPlayer cp = mover then
          captureStep P (flipPlayer cp) 0
            (setStonesAt g (flipPlayer cp) 0 (getStonesAt g (flipPlayer cp) 0 + 1))
        else setStonesAt g (flipPlayer cp) 0 (getStonesAt g (flipPlayer cp) 0 + 1)),
        flipPlayer cp, 0, false, [⟨flipPlayer cp, 0, false⟩]⟩ := by
  simp [sowLoop, h, hc]

theorem sowLoop_succ_boundary_nonmover (P : Nat) (mover cp : Int) (pos n : Nat)
    (g : GameState) (h : P ≤ pos + 1) (hc : ¬ cp = mover) (hn : n ≠ 0) :
    sowLoop P mover (n + 1) cp pos g =
      { sowLoop P mover n (flipPlayer cp) 0
          (setStonesAt g (flipPlayer cp) 0 (getStonesAt g (flipPlayer cp) 0 + 1)) with
        trace := ⟨flipPlayer cp, 0, false⟩ ::
          (sowLoop P mover n (flipPlayer cp) 0
            (setStonesAt g (flipPlayer cp) 0 (getStonesAt g (flipPlayer cp) 0 + 1))).trace } := by
  rcases n with _ | m
  · exact absurd rfl hn
  · simp [sowLoop, h, hc]

theorem sowLoop_one_boundary_mover (P : Nat) (mover cp : Int) (pos : Nat) (g : GameState)
    (h : P ≤ pos + 1) (hc : cp = mover) :
    sowLoop P mover 1 cp pos g =
      ⟨addMancala cp 1 g, cp, pos + 1, true, [⟨cp, -1, true⟩]⟩ := by
  simp [sowLoop, h, hc]

theorem sowLoop_two_boundary_mover (P : Nat) (mover cp : Int) (pos : Nat) (g : GameState)
    (h : P ≤ pos + 1) (hc : cp = mover) :
    sowLoop P mover 2 cp pos g =
      ⟨(if flipPlayer cp = mover then
          captureStep P (flipPlayer cp) 0
            (setStonesAt (addMancala cp 1 g) (flipPlayer cp) 0
              (getStonesAt (addMancala cp 1 g) (flipPlayer cp) 0 + 1))
        else
          setStonesAt (addMancala cp 1 g) (flipPlayer cp) 0
            (getStonesAt (addMancala cp 1 g) (flipPlayer cp) 0 + 1)),
        flipPlayer cp, 0, false, [⟨cp, -1, true⟩, ⟨flipPlayer cp, 0, false⟩]⟩ := by
  simp [sowLoop, h, hc]

theorem sowLoop_succ2_boundary_mover (P : Nat) (mover cp : Int) (pos m : Nat)
    (g : GameState) (h : P ≤ pos + 1) (hc : cp = mover) (hm : m ≠ 0) :
    sowLoop P mover (m + 2) cp pos g =
      { sowLoop P mover m (flipPlayer cp) 0
          (setStonesAt (addMancala cp 1 g) (flipPlayer cp) 0
            (getStonesAt (addMancala cp 1 g) (flipPlayer cp) 0 + 1)) with
        trace := ⟨cp, -1, true⟩ :: ⟨flipPlayer cp, 0, false⟩ ::
          (sowLoop P mover m (flipPlayer cp) 0
            (setStonesAt (addMancala cp 1 g) (flipPlayer cp) 0
              (getStonesAt (addMancala cp 1 g) (flipPlayer cp) 0 + 1))).trace } := by
  rcases m with _ | m1
  · exact absurd rfl hm
  · simp [sowLoop, h, hc]

theorem sowOnly_zero (P : Nat) (mover cp : Int) (pos : Nat) (g : GameState) :
    sowOnly P mover 0 cp pos g = ⟨g, cp, pos, false, []⟩ := rfl

theorem sowOnly_one_pit (P : Nat) (mover cp : Int) (pos : Nat) (g : GameState)
    (h : ¬ P ≤ pos + 1) :
    sowOnly P mover 1 cp pos g =
      ⟨setStonesAt g cp (pos + 1) (getStonesAt g cp (pos + 1) + 1),
        cp, pos + 1, false, [⟨cp, ((pos + 1 : Nat) : Int), false⟩]⟩ := by
  simp [sowOnly, h]

theorem sowOnly_succ_pit (P : Nat) (mover cp : Int) (pos n : Nat) (g : GameState)
    (h : ¬ P ≤ pos + 1) (hn : n ≠ 0) :
    sowOnly P mover (n + 1) cp pos g =
      { sowOnly P mover n cp (pos + 1)
          (setStonesAt g cp (pos + 1) (getStonesAt g cp (pos + 1) + 1)) with
        trace := ⟨cp, ((pos + 1 : Nat) : Int), false⟩ ::
          (sowOnly P mover n cp (pos + 1)
            (setStonesAt g cp (pos + 1) (getStonesAt g cp (pos + 1) + 1))).trace } := by
  rcases n with _ | m
  · exact absurd rfl hn
  · simp [sowOnly, h]

theorem sowOnly_one_boundary_nonmover (P : Nat) (mover cp : Int) (pos : Nat) (g : GameState)
    (h : P ≤ pos + 1) (hc : ¬ cp = mover) :
    sowOnly P mover 1 cp pos g =
      ⟨setStonesAt g (flipPlayer cp) 0 (getStonesAt g (flipPlayer cp) 0 + 1),
        flipPlayer cp, 0, false, [⟨flipPlayer cp, 0, false⟩]⟩ := by
  simp [sowOnly, h, hc]

theorem sowOnly_succ_boundary_nonmover (P : Nat) (mover cp : Int) (pos n : Nat)
    (g : GameState) (h : P ≤ pos + 1) (hc : ¬ cp = mover) (hn : n ≠ 0) :
    sowOnly P mover (n + 1) cp pos g =
      { sowOnly P mover n (flipPlayer cp) 0
          (setStonesAt g (flipPlayer cp) 0 (getStonesAt g (flipPlayer cp) 0 + 1)) with
        trace := ⟨flipPlayer cp, 0, false⟩ ::
          (sowOnly P mover n (flipPlayer cp) 0
            (setStonesAt g (flipPlayer cp) 0 (getStonesAt g (flipPlayer cp) 0 + 1))).trace } := by
  rcases n with _ | m
  · exact absurd rfl hn
  · simp [sowOnly, h, hc]

theorem sowOnly_one_boundary_mover (P : Nat) (mover cp : Int) (pos : Nat) (g : GameState)
    (h : P ≤ pos + 1) (hc : cp = mover) :
    sowOnly P mover 1 cp pos g =
      ⟨addMancala cp 1 g, cp, pos + 1, true, [⟨cp, -1, true⟩]⟩ := by
  simp [sowOnly, h, hc]

theorem sowOnly_two_boundary_mover (P : Nat) (mover cp : Int) (pos : Nat) (g : GameState)
    (h : P ≤ pos + 1) (hc : cp = mover) :
    sowOnly P mover 2 cp pos g =
      ⟨setStonesAt (addMancala cp 1 g) (flipPlayer cp) 0
          (getStonesAt (addMancala cp 1 g) (flipPlayer cp) 0 + 1),
        flipPlayer cp, 0, false, [⟨cp, -1, true⟩, ⟨flipPlayer cp, 0, false⟩]⟩ := by
  simp [sowOnly, h, hc]

theorem sowOnly_succ2_boundary_mover (P : Nat) (mover cp : Int) (pos m : Nat)
    (g : GameState) (h : P ≤ pos + 1) (hc : cp = mover) (hm : m ≠ 0) :
    sowOnly P mover (m + 2) cp pos g =
      { sowOnly P mover m (flipPlayer cp) 0
          (setStonesAt (addMancala cp 1 g) (flipPlayer cp) 0
            (getStonesAt (addMancala cp 1 g) (flipPlayer cp) 0 + 1)) with
        trace := ⟨cp, -1, true⟩ :: ⟨flipPlayer cp, 0, false⟩ ::
          (sowOnly P mover m (flipPlayer cp) 0
            (setStonesAt (addMancala cp 1 g) (flipPlayer cp) 0
              (getStonesAt (addMancala cp 1 g) (flipPlayer cp) 0 + 1))).trace } := by
  rcases m with _ | m1
  · exact absurd rfl hm
  · simp [sowOnly, h, hc]

/-! ### Trace lemmas for the sowing loop -/

theorem sowLoop_trace_length (P : Nat) (mover : Int) :
    ∀ (n : Nat) (cp : Int) (pos : Nat) (g : GameState),
      (sowLoop P mover n cp pos g).trace.length = n := by
  intro n
  induction n using Nat.strong_induction_on with
  | _ n ih =>
    intro cp pos g
    rcases n with _ | k
    · rw [sowLoop_zero]; rfl
    · by_cases hb : P ≤ pos + 1
      · by_cases hc : cp = mover
        · rcases k with _ | m
          · rw [sowLoop_one_boundary_mover P mover cp pos g hb hc]; rfl
          · by_cases hm : m = 0
            · subst hm
              rw [sowLoop_two_boundary_mover P mover cp pos g hb hc]; rfl
            · rw [sowLoop_succ2_boundary_mover P mover cp pos m g hb hc hm]
              simp [ih m (by omega)]
        · by_cases hk : k = 0
          · subst hk
            rw [sowLoop_one_boundary_nonmover P mover cp pos g hb hc]; rfl
          · rw [sowLoop_succ_boundary_nonmover P mover cp pos k g hb hc hk]
            simp [ih k (by omega)]
      · by_cases hk : k = 0
        · subst hk
          rw [sowLoop_one_pit P mover cp pos g hb]; rfl
        · rw [sowLoop_succ_pit P mover cp pos k g hb hk]
          simp [ih k (by omega)]

theorem sowLoop_trace_ne_nil (P : Nat) (mover : Int) (n : Nat) (cp : Int) (pos : Nat)
    (g : GameState) (hn : n ≠ 0) : (sowLoop P mover n cp pos g).trace ≠ [] := by
  intro hnil
  have := sowLoop_trace_length P mover n cp pos g
  rw [hnil] at this
  simp at this
  exact hn this.symm

theorem flipPlayer_ne (p : Int) : flipPlayer p ≠ p := by
  unfold flipPlayer
  split_ifs with h
  · simp [h]
  · exact fun he => h he.symm

theorem getLast?_cons_of_ne_nil (a : Cell) (l : List Cell) (hne : l ≠ []) :
    (a :: l).getLast? = l.getLast? := by
  rcases l with _ | ⟨x, t⟩
  · exact absurd rfl hne
  · rw [List.getLast?_cons_cons]

/-- Fields that the sowing loop never touches: the constructor arguments,
the turn marker and the lengths of both rows. -/
theorem sowLoop_preserves (P : Nat) (mover : Int) :
    ∀ (n : Nat) (cp : Int) (pos : Nat) (g : GameState),
      (sowLoop P mover n cp pos g).state.dimensions = g.dimensions ∧
      (sowLoop P mover n cp pos g).state.pocketsPerSide = g.pocketsPerSide ∧
      (sowLoop P mover n cp pos g).state.currentPlayer = g.currentPlayer ∧
      (sowLoop P mover n cp pos g).state.board1.length = g.board1.length ∧
      (sowLoop P mover n cp pos g).state.board2.length = g.board2.length := by
  intro n
  induction n using Nat.strong_induction_on with
  | _ n ih =>
    intro cp pos g
    rcases n with _ | k
    · rw [sowLoop_zero]
      exact ⟨rfl, rfl, rfl, rfl, rfl⟩
    · by_cases hb : P ≤ pos + 1
      · by_cases hc : cp = mover
        · rcases k with _ | m
          · rw [sowLoop_one_boundary_mover P mover cp pos g hb hc]
            simp
          · by_cases hm : m = 0
            · subst hm
              rw [sowLoop_two_boundary_mover P mover cp pos g hb hc]
              dsimp only
              split_ifs <;> simp
            · rw [sowLoop_succ2_boundary_mover P mover cp pos m g hb hc hm]
              simp [ih m (by omega)]
        · by_cases hk : k = 0
          · subst hk
            rw [sowLoop_one_boundary_nonmover P mover cp pos g hb hc]
            dsimp only
            split_ifs <;> simp
          · rw [sowLoop_succ_boundary_nonmover P mover cp pos k g hb hc hk]
            simp [ih k (by omega)]
      · by_cases hk : k = 0
        · subst hk
          rw [sowLoop_one_pit P mover cp pos g hb]
          dsimp only
          split_ifs <;> simp
        · rw [sowLoop_succ_pit P mover cp pos k g hb hk]
          simp [ih k (by omega)]

/-- When the mover is not player 1, the store of player 1 is never touched
by the sowing loop (every store update targets the mover). -/
theorem sowLoop_mancala1 (P : Nat) (mover : Int) (hm : mover ≠ 1) :
    ∀ (n : Nat) (cp : Int) (pos : Nat) (g : GameState),
      (sowLoop P mover n cp pos g).state.mancala1 = g.mancala1 := by
  intro n
  induction n using Nat.strong_induction_on with
  | _ n ih =>
    intro cp pos g
    rcases n with _ | k
    · rw [sowLoop_zero]
    · by_cases hb : P ≤ pos + 1
      · by_cases hc : cp = mover
        · rcases k with _ | m
          · rw [sowLoop_one_boundary_mover P mover cp pos g hb hc]
            simp [addMancala_mancala1_of_ne, hc, hm]
          · by_cases hm0 : m = 0
            · subst hm0
              rw [sowLoop_two_boundary_mover P mover cp pos g hb hc]
              dsimp only
              split_ifs with hf
              · rw [hc] at hf
                exact absurd hf (flipPlayer_ne mover)
              · simp [addMancala_mancala1_of_ne, hc, hm]
            · rw [sowLoop_succ2_boundary_mover P mover cp pos m g hb hc hm0]
              simp [ih m (by omega), addMancala_mancala1_of_ne, hc, hm]
        · by_cases hk : k = 0
          · subst hk
            rw [sowLoop_one_boundary_nonmover P mover cp pos g hb hc]
            dsimp only
            split_ifs with hf
            · simp [captureStep_mancala1_of_ne, hf, hm]
            · simp
          · rw [sowLoop_succ_boundary_nonmover P mover cp pos k g hb hc hk]
            simp [ih k (by omega)]
      · by_cases hk : k = 0
        · subst hk
          rw [sowLoop_one_pit P mover cp pos g hb]
          dsimp only
          split_ifs with hf
          · simp [captureStep_mancala1_of_ne, hf, hm]
          · simp
        · rw [sowLoop_succ_pit P mover cp pos k g hb hk]
          simp [ih k (by omega)]

/-- When the mover is not player 2, the store of player 2 is never touched
by the sowing loop. -/
theorem sowLoop_mancala2 (P : Nat) (mover : Int) (hm : mover ≠ 2) :
    ∀ (n : Nat) (cp : Int) (pos : Nat) (g : GameState),
      (sowLoop P mover n cp pos g).state.mancala2 = g.mancala2 := by
  intro n
  induction n using Nat.strong_induction_on with
  | _ n ih =>
    intro cp pos g
    rcases n with _ | k
    · rw [sowLoop_zero]
    · by_cases hb : P ≤ pos + 1
      · by_cases hc : cp = mover
        · rcases k with _ | m
          · rw [sowLoop_one_boundary_mover P mover cp pos g hb hc]
            simp [addMancala_mancala2_of_ne, hc, hm]
          · by_cases hm0 : m = 0
            · subst hm0
              rw [sowLoop_two_boundary_mover P mover cp pos g hb hc]
              dsimp only
              split_ifs with hf
              · rw [hc] at hf
                exact absurd hf (flipPlayer_ne mover)
              · simp [addMancala_mancala2_of_ne, hc, hm]
            · rw [sowLoop_succ2_boundary_mover P mover cp pos m g hb hc hm0]
              simp [ih m (by omega), addMancala_mancala2_of_ne, hc, hm]
        · by_cases hk : k = 0
          · subst hk
            rw [sowLoop_one_boundary_nonmover P mover cp pos g hb hc]
            dsimp only
            split_ifs with hf
            · simp [captureStep_mancala2_of_ne, hf, hm]
            · simp
          · rw [sowLoop_succ_boundary_nonmover P mover cp pos k g hb hc hk]
            simp [ih k (by omega)]
      · by_cases hk : k = 0
        · subst hk
          rw [sowLoop_one_pit P mover cp pos g hb]
          dsimp only
          split_ifs with hf
          · simp [captureStep_mancala2_of_ne, hf, hm]
          · simp
        · rw [sowLoop_succ_pit P mover cp pos k g hb hk]
          simp [ih k (by omega)]

/-- Every store deposit recorded in the trace belongs to the mover: the
sowing loop only deposits into a store under the guard that the cursor
player equals the mover. -/
theorem sowLoop_trace_store_owner (P : Nat) (mover : Int) :
    ∀ (n : Nat) (cp : Int) (pos : Nat) (g : GameState),
      ∀ c ∈ (sowLoop P mover n cp pos g).trace, c.isMancala = true → c.player = mover := by
  intro n
  induction n using Nat.strong_induction_on with
  | _ n ih =>
    intro cp pos g
    rcases n with _ | k
    · rw [sowLoop_zero]
      intro c hcm
      simp at hcm
    · by_cases hb : P ≤ pos + 1
      · by_cases hc : cp = mover
        · rcases k with _ | m
          · rw [sowLoop_one_boundary_mover P mover cp pos g hb hc]
            intro c hcm hman
            simp at hcm
            subst hcm
            exact hc
          · by_cases hm : m = 0
            · subst hm
              rw [sowLoop_two_boundary_mover P mover cp pos g hb hc]
              intro c hcm hman
              simp at hcm
              rcases hcm with h | h <;> subst h
              · exact hc
              · simp at hman
            · rw [sowLoop_succ2_boundary_mover P mover cp pos m g hb hc hm]
              intro c hcm hman
              rcases List.mem_cons.mp hcm with h | h
              · subst h; exact hc
              · rcases List.mem_cons.mp h with h2 | h2
                · subst h2; simp at hman
                · exact ih m (by omega) (flipPlayer cp) 0 _ c h2 hman
        · by_cases hk : k = 0
          · subst hk
            rw [sowLoop_one_boundary_nonmover P mover cp pos g hb hc]
            intro c hcm hman
            simp at hcm
            subst hcm
            simp at hman
          · rw [sowLoop_succ_boundary_nonmover P mover cp pos k g hb hc hk]
            intro c hcm hman
            rcases List.mem_cons.mp hcm with h | h
            · subst h; simp at hman
            · exact ih k (by omega) (flipPlayer cp) 0 _ c h hman
      · by_cases hk : k = 0
        · subst hk
          rw [sowLoop_one_pit P mover cp pos g hb]
          intro c hcm hman
          simp at hcm
          subst hcm
          simp at hman
        · rw [sowLoop_succ_pit P mover cp pos k g hb hk]
          intro c hcm hman
          rcases List.mem_cons.mp hcm with h | h
          · subst h; simp at hman
          · exact ih k (by omega) cp (pos + 1) _ c h hman

/-- The flag returned by the sowing loop is set exactly when the last
recorded deposit is a store deposit of the mover. -/
theorem sowLoop_lastStone_iff (P : Nat) (mover : Int) :
    ∀ (n : Nat) (cp : Int) (pos : Nat) (g : GameState),
      ((sowLoop P mover n cp pos g).lastStoneInMancala = true ↔
        (sowLoop P mover n cp pos g).trace.getLast? = some ⟨mover, -1, true⟩) := by
  intro n
  induction n using Nat.strong_induction_on with
  | _ n ih =>
    intro cp pos g
    rcases n with _ | k
    · rw [sowLoop_zero]
      simp
    · by_cases hb : P ≤ pos + 1
      · by_cases hc : cp = mover
        · rcases k with _ | m
          · rw [sowLoop_one_boundary_mover P mover cp pos g hb hc]
            simp [hc]
          · by_cases hm : m = 0
            · subst hm
              rw [sowLoop_two_boundary_mover P mover cp pos g hb hc]
              simp
            · rw [sowLoop_succ2_boundary_mover P mover cp pos m g hb hc hm]
              dsimp only
              rw [getLast?_cons_of_ne_nil _ _ (List.cons_ne_nil _ _),
                getLast?_cons_of_ne_nil _ _ (sowLoop_trace_ne_nil P mover m (flipPlayer cp) 0 _ hm)]
              exact ih m (by omega) (flipPlayer cp) 0 _
        · by_cases hk : k = 0
          · subst hk
            rw [sowLoop_one_boundary_nonmover P mover cp pos g hb hc]
            simp
          · rw [sowLoop_succ_boundary_nonmover P mover cp pos k g hb hc hk]
            dsimp only
            rw [getLast?_cons_of_ne_nil _ _ (sowLoop_trace_ne_nil P mover k (flipPlayer cp) 0 _ hk)]
            exact ih k (by omega) (flipPlayer cp) 0 _
      · by_cases hk : k = 0
        · subst hk
          rw [sowLoop_one_pit P mover cp pos g hb]
          simp
        · rw [sowLoop_succ_pit P mover cp pos k g hb hk]
          dsimp only
          rw [getLast?_cons_of_ne_nil _ _ (sowLoop_trace_ne_nil P mover k cp (pos + 1) _ hk)]
          exact ih k (by omega) cp (pos + 1) _

/-- The replay loop pushes exactly one record per stone. -/
theorem simLoop_length (P : Nat) (mover : Int) :
    ∀ (n : Nat) (cp : Int) (pos : Int), (simLoop P mover n cp pos).length = n := by
  intro n
  induction n with
  | zero => intro cp pos; rfl
  | succ i ih =>
    intro cp pos
    simp only [simLoop]
    split_ifs <;> simp [ih]

/-- The record sequence produced by the replay loop of `simulateMove`
coincides with the ghost deposit trace of the sowing loop of `performMove`,
started from the same cursor, for any stone count and any board contents. -/
theorem simLoop_eq_trace (P : Nat) (mover : Int) (hP : 0 < P) :
    ∀ (n : Nat) (cp : Int) (pos : Nat) (g : GameState),
      simLoop P mover n cp (pos : Int) = (sowLoop P mover n cp pos g).trace := by
  intro n
  induction n using Nat.strong_induction_on with
  | _ n ih =>
    intro cp pos g
    have hcast : (((P : Nat) : Int) ≤ (pos : Int) + 1) ↔ P ≤ pos + 1 := by omega
    have hP0 : ¬ (((P : Nat) : Int) ≤ (0 : Int)) := by omega
    rcases n with _ | k
    · rw [sowLoop_zero]
      rfl
    · by_cases hb : P ≤ pos + 1
      · by_cases hc : cp = mover
        · rcases k with _ | m
          · rw [sowLoop_one_boundary_mover P mover cp pos g hb hc]
            simp [simLoop, hcast.mpr hb, hc]
          · by_cases hm : m = 0
            · subst hm
              rw [sowLoop_two_boundary_mover P mover cp pos g hb hc]
              simp [simLoop, hcast.mpr hb, hc, hP0]
            · rw [sowLoop_succ2_boundary_mover P mover cp pos m g hb hc hm]
              have hIH := ih m (by omega) (flipPlayer cp) 0
                (setStonesAt (addMancala cp 1 g) (flipPlayer cp) 0
                  (getStonesAt (addMancala cp 1 g) (flipPlayer cp) 0 + 1))
              simp only [Nat.cast_zero] at hIH
              rw [hc] at hIH
              simp [simLoop, hcast.mpr hb, hc, hP0, hIH]
        · by_cases hk : k = 0
          · subst hk
            rw [sowLoop_one_boundary_nonmover P mover cp pos g hb hc]
            simp [simLoop, hcast.mpr hb, hc]
          · rw [sowLoop_succ_boundary_nonmover P mover cp pos k g hb hc hk]
            have hIH := ih k (by omega) (flipPlayer cp) 0
              (setStonesAt g (flipPlayer cp) 0 (getStonesAt g (flipPlayer cp) 0 + 1))
            simp only [Nat.cast_zero] at hIH
            simp [simLoop, hcast.mpr hb, hc, hIH]
      · by_cases hk : k = 0
        · subst hk
          rw [sowLoop_one_pit P mover cp pos g hb]
          have hb2 : ¬ (((P : Nat) : Int) ≤ (pos : Int) + 1) := by omega
          simp [simLoop, hb2]
        · rw [sowLoop_succ_pit P mover cp pos k g hb hk]
          have hb2 : ¬ (((P : Nat) : Int) ≤ (pos : Int) + 1) := by omega
          have hIH := ih k (by omega) cp (pos + 1)
            (setStonesAt g cp (pos + 1) (getStonesAt g cp (pos + 1) + 1))
          have hc1 : (((pos + 1 : Nat) : Nat) : Int) = (pos : Int) + 1 := by push_cast; ring
          rw [hc1] at hIH
          simp [simLoop, hb2, hIH]

theorem flipPlayer_mem (p : Int) : flipPlayer p = 1 ∨ flipPlayer p = 2 := by
  unfold flipPlayer
  split_ifs <;> simp

/-- Placing one stone in an in-range pit raises the grand total by one. -/
theorem total_place (g : GameState) (cp : Int) (pos : Nat)
    (h1 : pos < g.board1.length) (h2 : pos < g.board2.length) :
    total (setStonesAt g cp pos (getStonesAt g cp pos + 1)) = total g + 1 := by
  by_cases hc : cp = 1
  · subst hc
    simp [setStonesAt, getStonesAt, setBoard1, total]
    have hs := sum_set_getD_succ g.board1 pos h1
    simp only [List.getD_eq_getElem?_getD] at hs
    omega
  · simp [setStonesAt, getStonesAt, setBoard2, total, hc]
    have hs := sum_set_getD_succ g.board2 pos h2
    simp only [List.getD_eq_getElem?_getD] at hs
    omega

theorem total_addMancala (p : Int) (k : Nat) (g : GameState) (hp : p = 1 ∨ p = 2) :
    total (addMancala p k g) = total g + k := by
  rcases hp with h | h <;> subst h <;>
    simp [addMancala, setMancala1, setMancala2, total] <;> omega

/-- A capture relocates stones but conserves the grand total. -/
theorem total_captureStep (P : Nat) (cp : Int) (pos : Nat) (g : GameState)
    (hcp : cp = 1 ∨ cp = 2) (h1 : g.board1.length = P) (h2 : g.board2.length = P)
    (hpos : pos < P) (hP : 0 < P) :
    total (captureStep P cp pos g) = total g := by
  unfold captureStep
  dsimp only
  split_ifs with hl ho
  · rcases hcp with h | h <;> subst h
    · simp [flipPlayer, addMancala, setMancala1, setMancala2, setStonesAt,
        setBoard1, setBoard2, getStonesAt, total] at hl ho ⊢
      have e1 := sum_set_zero_getD g.board1 pos (by omega)
      have e2 := sum_set_zero_getD g.board2 (P - 1 - pos) (by omega)
      simp only [List.getD_eq_getElem?_getD] at e1 e2 hl ho ⊢
      omega
    · simp [flipPlayer, addMancala, setMancala1, setMancala2, setStonesAt,
        setBoard1, setBoard2, getStonesAt, total] at hl ho ⊢
      have e1 := sum_set_zero_getD g.board2 pos (by omega)
      have e2 := sum_set_zero_getD g.board1 (P - 1 - pos) (by omega)
      simp only [List.getD_eq_getElem?_getD] at e1 e2 hl ho ⊢
      omega
  · rfl
  · rfl

/-- The sowing loop adds exactly one stone to the board-plus-stores total
per stone in hand: nothing is created or destroyed beyond the deposits. -/
theorem sowLoop_total (P : Nat) (mover : Int) (hmv : mover = 1 ∨ mover = 2) :
    ∀ (n : Nat) (cp : Int) (pos : Nat) (g : GameState),
      g.board1.length = P → g.board2.length = P → 0 < P →
      total (sowLoop P mover n cp pos g).state = total g + n := by
  intro n
  induction n using Nat.strong_induction_on with
  | _ n ih =>
    intro cp pos g hg1 hg2 hP
    rcases n with _ | k
    · rw [sowLoop_zero]
      rfl
    · by_cases hb : P ≤ pos + 1
      · by_cases hc : cp = mover
        · rcases k with _ | m
          · rw [sowLoop_one_boundary_mover P mover cp pos g hb hc]
            dsimp only
            rw [total_addMancala cp 1 g (by rw [hc]; exact hmv)]
          · by_cases hm : m = 0
            · subst hm
              rw [sowLoop_two_boundary_mover P mover cp pos g hb hc]
              dsimp only
              split_ifs with hf
              · rw [hc] at hf
                exact absurd hf (flipPlayer_ne mover)
              · rw [total_place (addMancala cp 1 g) (flipPlayer cp) 0
                    (by simp [hg1, hP]) (by simp [hg2, hP]),
                  total_addMancala cp 1 g (by rw [hc]; exact hmv)]
            · rw [sowLoop_succ2_boundary_mover P mover cp pos m g hb hc hm]
              dsimp only
              rw [ih m (by omega) (flipPlayer cp) 0 _ (by simp [hg1]) (by simp [hg2]) hP,
                total_place (addMancala cp 1 g) (flipPlayer cp) 0
                  (by simp [hg1, hP]) (by simp [hg2, hP]),
                total_addMancala cp 1 g (by rw [hc]; exact hmv)]
              omega
        · by_cases hk : k = 0
          · subst hk
            rw [sowLoop_one_boundary_nonmover P mover cp pos g hb hc]
            dsimp only
            split_ifs with hf
            · rw [total_captureStep P (flipPlayer cp) 0 _ (flipPlayer_mem cp)
                  (by simp [hg1]) (by simp [hg2]) hP hP,
                total_place g (flipPlayer cp) 0 (by omega) (by omega)]
            · rw [total_place g (flipPlayer cp) 0 (by omega) (by omega)]
          · rw [sowLoop_succ_boundary_nonmover P mover cp pos k g hb hc hk]
            dsimp only
            rw [ih k (by omega) (flipPlayer cp) 0 _ (by simp [hg1]) (by simp [hg2]) hP,
              total_place g (flipPlayer cp) 0 (by omega) (by omega)]
            omega
      · by_cases hk : k = 0
        · subst hk
          rw [sowLoop_one_pit P mover cp pos g hb]
          dsimp only
          split_ifs with hf
          · rw [total_captureStep P cp (pos + 1) _ (by rw [hf]; exact hmv)
                (by simp [hg1]) (by simp [hg2]) (by omega) hP,
              total_place g cp (pos + 1) (by omega) (by omega)]
          · rw [total_place g cp (pos + 1) (by omega) (by omega)]
        · rw [sowLoop_succ_pit P mover cp pos k g hb hk]
          dsimp only
          rw [ih k (by omega) cp (pos + 1) _ (by simp [hg1]) (by simp [hg2]) hP,
            total_place g cp (pos + 1) (by omega) (by omega)]
          omega

theorem getElem?_set_self_zero :
    ∀ (l : List Nat) (i : Nat), (l.set i 0)[i]?.getD 0 = 0 := by
  intro l
  induction l with
  | nil => intro i; rfl
  | cons a t ih =>
    intro i
    cases i with
    | zero => simp
    | succ j => simpa using ih j

/-- When the landing pit holds exactly one stone and the mirror pit is
non-empty, the capture block zeroes both pits and adds their joint contents
to the store of the capturing player. -/
theorem captureStep_effects (P : Nat) (cp : Int) (pos : Nat) (g : GameState)
    (hcp : cp = 1 ∨ cp = 2)
    (hl : getStonesAt g cp pos = 1)
    (ho : 0 < getStonesAt g (flipPlayer cp) (P - 1 - pos)) :
    getStonesAt (captureStep P cp pos g) cp pos = 0 ∧
    getStonesAt (captureStep P cp pos g) (flipPlayer cp) (P - 1 - pos) = 0 ∧
    storeCount (captureStep P cp pos g) cp =
      storeCount g cp + getStonesAt g (flipPlayer cp) (P - 1 - pos) + 1 := by
  unfold captureStep
  dsimp only
  rw [if_pos hl, if_pos ho]
  rcases hcp with h | h <;> subst h
  · refine ⟨?_, ?_, ?_⟩ <;>
      simp [flipPlayer, addMancala, setMancala1, setMancala2, setStonesAt, setBoard1,
        setBoard2, getStonesAt, storeCount, getElem?_set_self_zero] <;> omega
  · refine ⟨?_, ?_, ?_⟩ <;>
      simp [flipPlayer, addMancala, setMancala1, setMancala2, setStonesAt, setBoard1,
        setBoard2, getStonesAt, storeCount, getElem?_set_self_zero] <;> omega

/-- When the landing pit does not hold exactly one stone, or the mirror pit
is empty, the capture block changes nothing. -/
theorem captureStep_noop (P : Nat) (cp : Int) (pos : Nat) (g : GameState)
    (h : ¬ (getStonesAt g cp pos = 1 ∧
      0 < getStonesAt g (flipPlayer cp) (P - 1 - pos))) :
    captureStep P cp pos g = g := by
  unfold captureStep
  dsimp only
  split_ifs with h1 h2
  · exact absurd ⟨h1, h2⟩ h
  · rfl
  · rfl

/-- The sowing loop with the capture block equals the capture-free loop
followed by one capture check at the landing cell (for at least one stone
in hand, the capture block runs only on the final deposit and only when the
cursor player equals the mover). -/
theorem sowLoop_eq_sowOnly (P : Nat) (mover : Int) :
    ∀ (n : Nat) (cp : Int) (pos : Nat) (g : GameState), n ≠ 0 →
      sowLoop P mover n cp pos g =
        (if (sowOnly P mover n cp pos g).lastStoneInMancala then
           sowOnly P mover n cp pos g
         else if (sowOnly P mover n cp pos g).lastPlayer = mover then
           { sowOnly P mover n cp pos g with
             state := captureStep P (sowOnly P mover n cp pos g).lastPlayer
               (sowOnly P mover n cp pos g).lastPos (sowOnly P mover n cp pos g).state }
         else sowOnly P mover n cp pos g) := by
  intro n
  induction n using Nat.strong_induction_on with
  | _ n ih =>
    intro cp pos g hn
    rcases n with _ | k
    · exact absurd rfl hn
    · by_cases hb : P ≤ pos + 1
      · by_cases hc : cp = mover
        · rcases k with _ | m
          · rw [sowLoop_one_boundary_mover P mover cp pos g hb hc,
              sowOnly_one_boundary_mover P mover cp pos g hb hc]
            simp
          · by_cases hm : m = 0
            · subst hm
              rw [sowLoop_two_boundary_mover P mover cp pos g hb hc,
                sowOnly_two_boundary_mover P mover cp pos g hb hc]
              dsimp only
              split_ifs <;> simp_all
            · rw [sowLoop_succ2_boundary_mover P mover cp pos m g hb hc hm,
                sowOnly_succ2_boundary_mover P mover cp pos m g hb hc hm,
                ih m (by omega) (flipPlayer cp) 0 _ hm]
              dsimp only
              cases hbool : (sowOnly P mover m (flipPlayer cp) 0
                  (setStonesAt (addMancala cp 1 g) (flipPlayer cp) 0
                    (getStonesAt (addMancala cp 1 g) (flipPlayer cp) 0 + 1))).lastStoneInMancala
              · by_cases hlp : (sowOnly P mover m (flipPlayer cp) 0
                    (setStonesAt (addMancala cp 1 g) (flipPlayer cp) 0
                      (getStonesAt (addMancala cp 1 g) (flipPlayer cp) 0 + 1))).lastPlayer = mover
                · simp [hbool, hlp]
                · simp [hbool, hlp]
              · simp [hbool]
        · by_cases hk : k = 0
          · subst hk
            rw [sowLoop_one_boundary_nonmover P mover cp pos g hb hc,
              sowOnly_one_boundary_nonmover P mover cp pos g hb hc]
            dsimp only
            split_ifs <;> simp_all
          · rw [sowLoop_succ_boundary_nonmover P mover cp pos k g hb hc hk,
              sowOnly_succ_boundary_nonmover P mover cp pos k g hb hc hk,
              ih k (by omega) (flipPlayer cp) 0 _ hk]
            dsimp only
            cases hbool : (sowOnly P mover k (flipPlayer cp) 0
                (setStonesAt g (flipPlayer cp) 0 (getStonesAt g (flipPlayer cp) 0 + 1))).lastStoneInMancala
            · by_cases hlp : (sowOnly P mover k (flipPlayer cp) 0
                  (setStonesAt g (flipPlayer cp) 0
                    (getStonesAt g (flipPlayer cp) 0 + 1))).lastPlayer = mover
              · simp [hbool, hlp]
              · simp [hbool, hlp]
            · simp [hbool]
      · by_cases hk : k = 0
        · subst hk
          rw [sowLoop_one_pit P mover cp pos g hb, sowOnly_one_pit P mover cp pos g hb]
          dsimp only
          split_ifs <;> simp_all
        · rw [sowLoop_succ_pit P mover cp pos k g hb hk,
            sowOnly_succ_pit P mover cp pos k g hb hk,
            ih k (by omega) cp (pos + 1) _ hk]
          dsimp only
          cases hbool : (sowOnly P mover k cp (pos + 1)
              (setStonesAt g cp (pos + 1) (getStonesAt g cp (pos + 1) + 1))).lastStoneInMancala
          · by_cases hlp : (sowOnly P mover k cp (pos + 1)
                (setStonesAt g cp (pos + 1) (getStonesAt g cp (pos + 1) + 1))).lastPlayer = mover
            · simp [hbool, hlp]
            · simp [hbool, hlp]
          · simp [hbool]

/-! ### Lemmas about performMove and simulateMove at the interface level -/

@[simp] theorem getStonesAt_setCurrentPlayer (g : GameState) (p q : Int) (i : Nat) :
    getStonesAt (setCurrentPlayer g p) q i = getStonesAt g q i := by
  simp [getStonesAt]

@[simp] theorem storeCount_setCurrentPlayer (g : GameState) (p q : Int) :
    storeCount (setCurrentPlayer g p) q = storeCount g q := by
  simp [storeCount]

theorem isValidMove_facts (g : GameState) (position : Int)
    (hv : isValidMove g position = true) :
    0 ≤ position ∧ position < (g.pocketsPerSide : Int) ∧
    position.toNat < g.pocketsPerSide ∧ 0 < g.pocketsPerSide ∧
    0 < getStonesAt g g.currentPlayer position.toNat := by
  unfold isValidMove at hv
  split_ifs at hv with h
  push_neg at h
  obtain ⟨h1, h2⟩ := h
  refine ⟨by omega, by omega, by omega, by omega, ?_⟩
  simpa using hv

theorem performMove_invalid (g : GameState) (position : Int)
    (hv : isValidMove g position = false) :
    performMove g position = ⟨g, false, []⟩ := by
  unfold performMove
  rw [hv]
  simp

theorem performMove_valid (g : GameState) (position : Int)
    (hv : isValidMove g position = true) :
    performMove g position =
      ⟨(if (sowLoop g.pocketsPerSide g.currentPlayer
            (getStonesAt g g.currentPlayer position.toNat) g.currentPlayer position.toNat
            (setStonesAt g g.currentPlayer position.toNat 0)).lastStoneInMancala then
          (sowLoop g.pocketsPerSide g.currentPlayer
            (getStonesAt g g.currentPlayer position.toNat) g.currentPlayer position.toNat
            (setStonesAt g g.currentPlayer position.toNat 0)).state
        else
          setCurrentPlayer
            (sowLoop g.pocketsPerSide g.currentPlayer
              (getStonesAt g g.currentPlayer position.toNat) g.currentPlayer position.toNat
              (setStonesAt g g.currentPlayer position.toNat 0)).state
            (flipPlayer
              (sowLoop g.pocketsPerSide g.currentPlayer
                (getStonesAt g g.currentPlayer position.toNat) g.currentPlayer position.toNat
                (setStonesAt g g.currentPlayer position.toNat 0)).state.currentPlayer)),
        (sowLoop g.pocketsPerSide g.currentPlayer
          (getStonesAt g g.currentPlayer position.toNat) g.currentPlayer position.toNat
          (setStonesAt g g.currentPlayer position.toNat 0)).lastStoneInMancala,
        (sowLoop g.pocketsPerSide g.currentPlayer
          (getStonesAt g g.currentPlayer position.toNat) g.currentPlayer position.toNat
          (setStonesAt g g.currentPlayer position.toNat 0)).trace⟩ := by
  unfold performMove
  rw [hv]
  simp

theorem simulateMove_valid (g : GameState) (position : Int)
    (hv : isValidMove g position = true) :
    simulateMove g position =
      simLoop g.pocketsPerSide g.currentPlayer
        (getStonesAt g g.currentPlayer position.toNat) g.currentPlayer position := by
  unfold simulateMove
  rw [hv]
  simp

/-- Picking up all stones of an in-range pit lowers the grand total by
exactly the picked-up count. -/
theorem total_pickup (g : GameState) (cp : Int) (pos : Nat)
    (h1 : pos < g.board1.length) (h2 : pos < g.board2.length) :
    total (setStonesAt g cp pos 0) + getStonesAt g cp pos = total g := by
  by_cases hc : cp = 1
  · subst hc
    simp [setStonesAt, getStonesAt, setBoard1, total]
    have hs := sum_set_zero_getD g.board1 pos h1
    simp only [List.getD_eq_getElem?_getD] at hs
    omega
  · simp [setStonesAt, getStonesAt, setBoard2, total, hc]
    have hs := sum_set_zero_getD g.board2 pos h2
    simp only [List.getD_eq_getElem?_getD] at hs
    omega

/-- One `performMove` call conserves the grand total and well-formedness. -/
theorem performMove_total_WF (g : GameState) (position : Int) (hwf : WF g) :
    total (performMove g position).state = total g ∧ WF (performMove g position).state := by
  obtain ⟨hg1, hg2, hcp⟩ := hwf
  cases hval : isValidMove g position
  · rw [performMove_invalid g position hval]
    exact ⟨rfl, hg1, hg2, hcp⟩
  · rw [performMove_valid g position hval]
    obtain ⟨hpos0, hposP, hposN, hP, hstones⟩ := isValidMove_facts g position hval
    have hpres := sowLoop_preserves g.pocketsPerSide g.currentPlayer
      (getStonesAt g g.currentPlayer position.toNat) g.currentPlayer position.toNat
      (setStonesAt g g.currentPlayer position.toNat 0)
    have htot := sowLoop_total g.pocketsPerSide g.currentPlayer hcp
      (getStonesAt g g.currentPlayer position.toNat) g.currentPlayer position.toNat
      (setStonesAt g g.currentPlayer position.toNat 0)
      (by simp [hg1]) (by simp [hg2]) hP
    have hpick := total_pickup g g.currentPlayer position.toNat
      (by omega) (by omega)
    dsimp only
    constructor
    · split_ifs <;> simp only [total, setCurrentPlayer_board1, setCurrentPlayer_board2,
        setCurrentPlayer_mancala1, setCurrentPlayer_mancala2] <;>
        (simp only [total] at htot hpick; omega)
    · refine ⟨?_, ?_, ?_⟩
      · split_ifs <;>
          simp [hpres.2.2.2.1, hpres.2.1, hg1]
      · split_ifs <;>
          simp [hpres.2.2.2.2, hpres.2.1, hg2]
      · split_ifs with hbool
        · rw [hpres.2.2.1]
          simpa using hcp
        · rw [setCurrentPlayer_currentPlayer]
          exact flipPlayer_mem _

theorem applyMoves_inv :
    ∀ (ms : List Int) (g : GameState), WF g →
      total (applyMoves g ms) = total g ∧ WF (applyMoves g ms) := by
  intro ms
  induction ms with
  | nil => intro g hwf; exact ⟨rfl, hwf⟩
  | cons p ps ih =>
    intro g hwf
    have h1 := performMove_total_WF g p hwf
    have h2 := ih (performMove g p).state h1.2
    have hstep : applyMoves g (p :: ps) = applyMoves (performMove g p).state ps := rfl
    rw [hstep, h2.1, h1.1]
    exact ⟨rfl, h2.2⟩

theorem construct_WF (d P : Nat) : WF (construct d P) := by
  refine ⟨?_, ?_, Or.inl rfl⟩ <;> simp [construct]

theorem construct_total (d P : Nat) : total (construct d P) = 2 * P * initialStones := by
  simp [construct, total, List.sum_replicate, initialStones]
  omega

/-! ### The claims -/

/-- Claim C1: for every board state and every position that `isValidMove`
accepts, the ordered cell sequence returned by `simulateMove` (owner plus
pit index or store marker per entry) equals the sequence of cells the
sowing loop of `performMove` deposits into, store deposits included, in the
same order; hence every prefix matches as well. -/
theorem claim_C1_simulate_matches_perform (g : GameState) (position : Int)
    (hv : isValidMove g position = true) :
    simulateMove g position = (performMove g position).trace ∧
    ∀ (k : Nat), (simulateMove g position).take k =
      ((performMove g position).trace).take k := by
  obtain ⟨hpos0, hposP, hposN, hP, hstones⟩ := isValidMove_facts g position hv
  have hmain : simulateMove g position = (performMove g position).trace := by
    rw [simulateMove_valid g position hv, performMove_valid g position hv]
    dsimp only
    have hcast : ((position.toNat : Nat) : Int) = position := Int.toNat_of_nonneg hpos0
    rw [← hcast]
    exact simLoop_eq_trace g.pocketsPerSide g.currentPlayer hP
      (getStonesAt g g.currentPlayer position.toNat) g.currentPlayer position.toNat
      (setStonesAt g g.currentPlayer position.toNat 0)
  exact ⟨hmain, fun k => by rw [hmain]⟩

/-- Witness for claim C1 on the default six-pit board, choosing pit 2. -/
theorem claim_C1_witness :
    isValidMove (construct 2 6) 2 = true ∧
    simulateMove (construct 2 6) 2 = (performMove (construct 2 6) 2).trace :=
  ⟨by decide, (claim_C1_simulate_matches_perform (construct 2 6) 2 (by decide)).1⟩

/-- Claim C4: for every board state and valid position, `performMove`
returns true exactly when the last sown stone went into the store of the
mover (the last trace entry is the store deposit of the mover), and the
turn marker flips exactly when that fails. -/
theorem claim_C4_turn_law (g : GameState) (position : Int)
    (hv : isValidMove g position = true) :
    ((performMove g position).keepsTurn = true ↔
      (performMove g position).trace.getLast? = some ⟨g.currentPlayer, -1, true⟩) ∧
    (performMove g position).state.currentPlayer =
      (if (performMove g position).keepsTurn then g.currentPlayer
       else flipPlayer g.currentPlayer) := by
  rw [performMove_valid g position hv]
  dsimp only
  have hpres := (sowLoop_preserves g.pocketsPerSide g.currentPlayer
    (getStonesAt g g.currentPlayer position.toNat) g.currentPlayer position.toNat
    (setStonesAt g g.currentPlayer position.toNat 0)).2.2.1
  constructor
  · exact sowLoop_lastStone_iff g.pocketsPerSide g.currentPlayer
      (getStonesAt g g.currentPlayer position.toNat) g.currentPlayer position.toNat
      (setStonesAt g g.currentPlayer position.toNat 0)
  · cases hbool : (sowLoop g.pocketsPerSide g.currentPlayer
        (getStonesAt g g.currentPlayer position.toNat) g.currentPlayer position.toNat
        (setStonesAt g g.currentPlayer position.toNat 0)).lastStoneInMancala <;>
      simp [hbool, hpres]

/-- Witness for claim C4: from the fresh board, pit 2 ends in the store of
the mover, keeps the turn and leaves the turn marker at player 1. -/
theorem claim_C4_witness :
    isValidMove (construct 2 6) 2 = true ∧
    ((performMove (construct 2 6) 2).keepsTurn = true ↔
      (performMove (construct 2 6) 2).trace.getLast? = some ⟨1, -1, true⟩) ∧
    (performMove (construct 2 6) 2).state.currentPlayer =
      (if (performMove (construct 2 6) 2).keepsTurn then 1 else flipPlayer 1) :=
  ⟨by decide, claim_C4_turn_law (construct 2 6) 2 (by decide)⟩

/-- Claim C5: a move never deposits into the store of the opponent: every
store entry of the deposit trace belongs to the mover, and the store count
of the opponent is unchanged by `performMove` (captures only ever credit
the mover). -/
theorem claim_C5_opponent_store_skip (g : GameState) (position : Int)
    (hcp : g.currentPlayer = 1 ∨ g.currentPlayer = 2) :
    storeCount (performMove g position).state (flipPlayer g.currentPlayer) =
      storeCount g (flipPlayer g.currentPlayer) ∧
    ∀ c ∈ (performMove g position).trace, c.isMancala = true →
      c.player = g.currentPlayer := by
  cases hval : isValidMove g position
  · rw [performMove_invalid g position hval]
    exact ⟨rfl, by intro c hc; simp at hc⟩
  · rw [performMove_valid g position hval]
    dsimp only
    constructor
    · rcases hcp with h | h
      · rw [h]
        have hm2 := sowLoop_mancala2 g.pocketsPerSide 1 (by decide)
          (getStonesAt g 1 position.toNat) 1 position.toNat
          (setStonesAt g 1 position.toNat 0)
        split_ifs <;> simp [flipPlayer, storeCount, hm2]
      · rw [h]
        have hm1 := sowLoop_mancala1 g.pocketsPerSide 2 (by decide)
          (getStonesAt g 2 position.toNat) 2 position.toNat
          (setStonesAt g 2 position.toNat 0)
        split_ifs <;> simp [flipPlayer, storeCount, hm1]
    · intro c hcm hman
      exact sowLoop_trace_store_owner g.pocketsPerSide g.currentPlayer
        (getStonesAt g g.currentPlayer position.toNat) g.currentPlayer position.toNat
        (setStonesAt g g.currentPlayer position.toNat 0) c hcm hman

/-- Witness for claim C5: a long move from a two-pit board that laps
through the row of the opponent leaves the store of player 2 at zero. -/
theorem claim_C5_witness :
    ((⟨2, 2, 1, [7, 0], [0, 0], 0, 0⟩ : GameState).currentPlayer = 1 ∨
      (⟨2, 2, 1, [7, 0], [0, 0], 0, 0⟩ : GameState).currentPlayer = 2) ∧
    storeCount (performMove (⟨2, 2, 1, [7, 0], [0, 0], 0, 0⟩ : GameState) 0).state
        (flipPlayer 1) =
      storeCount (⟨2, 2, 1, [7, 0], [0, 0], 0, 0⟩ : GameState) (flipPlayer 1) :=
  ⟨Or.inl rfl,
    (claim_C5_opponent_store_skip (⟨2, 2, 1, [7, 0], [0, 0], 0, 0⟩ : GameState) 0
      (Or.inl rfl)).1⟩

/-- Claim C7: an out-of-range position, or an in-range position whose pit of
the current player is empty, is rejected by `isValidMove`, and `performMove`
on it returns false with the state (pits, stores and turn marker) unchanged
and an empty deposit trace. -/
theorem claim_C7_invalid_noop (g : GameState) (position : Int)
    (h : position < 0 ∨ (g.pocketsPerSide : Int) ≤ position ∨
      getStonesAt g g.currentPlayer position.toNat = 0) :
    isValidMove g position = false ∧ performMove g position = ⟨g, false, []⟩ := by
  have hval : isValidMove g position = false := by
    unfold isValidMove
    split_ifs with h1
    · rfl
    · push_neg at h1
      rcases h with h | h | h
      · omega
      · omega
      · simp [h]
  exact ⟨hval, performMove_invalid g position hval⟩

/-- Witness for claim C7 on an empty pit of the current player. -/
theorem claim_C7_witness :
    ((0 : Int) < 0 ∨ ((⟨2, 2, 1, [0, 4], [4, 4], 0, 0⟩ : GameState).pocketsPerSide : Int) ≤ 0 ∨
      getStonesAt (⟨2, 2, 1, [0, 4], [4, 4], 0, 0⟩ : GameState)
        (⟨2, 2, 1, [0, 4], [4, 4], 0, 0⟩ : GameState).currentPlayer (0 : Int).toNat = 0) ∧
    isValidMove (⟨2, 2, 1, [0, 4], [4, 4], 0, 0⟩ : GameState) 0 = false ∧
    performMove (⟨2, 2, 1, [0, 4], [4, 4], 0, 0⟩ : GameState) 0 =
      ⟨(⟨2, 2, 1, [0, 4], [4, 4], 0, 0⟩ : GameState), false, []⟩ :=
  ⟨by decide,
    claim_C7_invalid_noop (⟨2, 2, 1, [0, 4], [4, 4], 0, 0⟩ : GameState) 0 (by decide)⟩

/-- Claim C8: for every board state and valid position, `performMove`
terminates (the embedded sowing loop is a total function by construction,
recursing on the stones in hand) and the number of sowing deposits it
performs is at most the number of stones picked up from the chosen pit. -/
theorem claim_C8_bounded_steps (g : GameState) (position : Int)
    (hv : isValidMove g position = true) :
    ((performMove g position).trace).length ≤
      getStonesAt g g.currentPlayer position.toNat := by
  rw [performMove_valid g position hv]
  dsimp only
  rw [sowLoop_trace_length]

/-- Witness for claim C8 on the fresh board. -/
theorem claim_C8_witness :
    isValidMove (construct 2 6) 2 = true ∧
    ((performMove (construct 2 6) 2).trace).length ≤
      getStonesAt (construct 2 6) (construct 2 6).currentPlayer (2 : Int).toNat :=
  ⟨by decide, claim_C8_bounded_steps (construct 2 6) 2 (by decide)⟩

/-- Claim C9: the player argument of `getStonesAt` and `setStonesAt` is not
range-checked: every player value other than 1, including 0, 3 and negative
numbers, reads and writes the row of player 2. -/
theorem claim_C9_player_not_checked (g : GameState) (p : Int) (position c : Nat)
    (hp : p ≠ 1) (hpos : position < g.pocketsPerSide) :
    getStonesAt g p position = getStonesAt g 2 position ∧
    setStonesAt g p position c = setStonesAt g 2 position c := by
  constructor <;> simp [getStonesAt, setStonesAt, hp]

/-- Witness for claim C9 at player value 3 (and the same for 0 and -1 would
hold by the same theorem). -/
theorem claim_C9_witness :
    ((3 : Int) ≠ 1) ∧ ((1 : Nat) < (construct 2 6).pocketsPerSide) ∧
    getStonesAt (construct 2 6) 3 1 = getStonesAt (construct 2 6) 2 1 ∧
    setStonesAt (construct 2 6) 3 1 9 = setStonesAt (construct 2 6) 2 1 9 :=
  ⟨by decide, by decide, claim_C9_player_not_checked (construct 2 6) 3 1 9 (by decide) (by decide)⟩

/-- Claim C10: for every board state and accepted position, the sequence
returned by `simulateMove` has exactly one entry per stone in the chosen
pit: its length equals the stone count at that moment, with no extra entry
for boundary crossings. -/
theorem claim_C10_simulate_length (g : GameState) (position : Int)
    (hv : isValidMove g position = true) :
    (simulateMove g position).length =
      getStonesAt g g.currentPlayer position.toNat := by
  rw [simulateMove_valid g position hv, simLoop_length]

/-- Witness for claim C10 on a move that wraps through the store and the
opposing row: nine stones give nine touched cells. -/
theorem claim_C10_witness :
    isValidMove (⟨2, 2, 1, [9, 0], [0, 0], 0, 0⟩ : GameState) 0 = true ∧
    (simulateMove (⟨2, 2, 1, [9, 0], [0, 0], 0, 0⟩ : GameState) 0).length =
      getStonesAt (⟨2, 2, 1, [9, 0], [0, 0], 0, 0⟩ : GameState)
        (⟨2, 2, 1, [9, 0], [0, 0], 0, 0⟩ : GameState).currentPlayer (0 : Int).toNat :=
  ⟨by decide,
    claim_C10_simulate_length (⟨2, 2, 1, [9, 0], [0, 0], 0, 0⟩ : GameState) 0 (by decide)⟩

/-- Claim C3: along every sequence of legal moves from the freshly
constructed state, the grand total (both rows plus both stores) stays at
2 * pocketsPerSide * initialStones at every prefix. -/
theorem claim_C3_conservation (d P : Nat) (ms : List Int)
    (hlegal : movesValid (construct d P) ms = true) :
    ∀ (k : Nat), total (applyMoves (construct d P) (ms.take k)) =
      2 * P * initialStones := by
  intro k
  have h := applyMoves_inv (ms.take k) (construct d P) (construct_WF d P)
  rw [h.1, construct_total]

/-- Witness for claim C3: the one-move legal sequence playing pit 2. -/
theorem claim_C3_witness :
    movesValid (construct 2 6) [2] = true ∧
    total (applyMoves (construct 2 6) ([2].take 1)) = 2 * 6 * initialStones :=
  ⟨by decide, claim_C3_conservation 2 6 [2] (by decide) 1⟩

/-- Counterexample for claim C6: the engine constructor takes no
initial-stones argument and always fills every pit with 4, so for an
initial-stones value S = 5 the constructed state does not hold S: the
first pit of player 1 holds 4, not 5. -/
theorem claim_C6_counterexample : ¬ (getStonesAt (construct 2 6) 1 0 = 5) := by
  decide

/-- Claim C6 (amended): construction of the engine, given `dimensions` and
`pocketsPerSide` P, produces two length-P rows every cell of which holds the
fixed value `initialStones = 4` (a different per-pit count is applied only
by the restart path of the caller, after construction), both stores equal
to 0 and the turn marker set to player 1. -/
theorem claim_C6_construction_amended (d P : Nat) :
    (construct d P).board1 = List.replicate P initialStones ∧
    (construct d P).board2 = List.replicate P initialStones ∧
    (construct d P).board1.length = P ∧
    (construct d P).board2.length = P ∧
    (construct d P).mancala1 = 0 ∧
    (construct d P).mancala2 = 0 ∧
    (construct d P).currentPlayer = 1 := by
  refine ⟨rfl, rfl, ?_, ?_, rfl, rfl, rfl⟩ <;> simp [construct]

/-- Counterexample for claim C2: on the two-pit board with rows [1, 0] and
[0, 0], the single stone of pit 0 lands in the empty own pit 1 (the last
trace entry is that pit and its count becomes exactly 1), yet no capture
happens because the mirror pit of the opponent is empty: the landing pit
keeps its stone and the store stays at 0, contradicting the claimed
transfer of mirror-plus-landing (which would zero the pit and put one
stone in the store). -/
theorem claim_C2_counterexample :
    (performMove (⟨2, 2, 1, [1, 0], [0, 0], 0, 0⟩ : GameState) 0).trace.getLast? =
        some ⟨1, 1, false⟩ ∧
    getStonesAt (performMove (⟨2, 2, 1, [1, 0], [0, 0], 0, 0⟩ : GameState) 0).state 1 1 = 1 ∧
    ¬ (getStonesAt (performMove (⟨2, 2, 1, [1, 0], [0, 0], 0, 0⟩ : GameState) 0).state 1 1 = 0 ∧
        (performMove (⟨2, 2, 1, [1, 0], [0, 0], 0, 0⟩ : GameState) 0).state.mancala1 =
          0 + 0 + 1) := by
  decide

/-- Claim C2 (amended): in `performMove`, a capture occurs if and only if
the final sown stone lands in an empty mover-owned pit (its count becomes
exactly 1) AND the mirror pit `P - 1 - landingIndex` of the opponent is
non-empty; when it occurs, the mirror pit is fully transferred, plus the
landing stone, into the store of the mover and both pits become 0; when the
condition fails (store landing, opponent-row landing, non-empty landing pit,
or empty mirror pit) the boards and stores are exactly those left by pure
sowing.  Here `r` is the result of the capture-free sowing loop started
from the picked-up state. -/
theorem claim_C2_capture_amended (g : GameState) (position : Int) (r : SowResult)
    (mirror : Nat)
    (hv : isValidMove g position = true)
    (hcp : g.currentPlayer = 1 ∨ g.currentPlayer = 2)
    (hr : r = sowOnly g.pocketsPerSide g.currentPlayer
        (getStonesAt g g.currentPlayer position.toNat) g.currentPlayer position.toNat
        (setStonesAt g g.currentPlayer position.toNat 0))
    (hmir : mirror = g.pocketsPerSide - 1 - r.lastPos) :
    ((r.lastStoneInMancala = false ∧ r.lastPlayer = g.currentPlayer ∧
        getStonesAt r.state g.currentPlayer r.lastPos = 1 ∧
        0 < getStonesAt r.state (flipPlayer g.currentPlayer) mirror) →
      getStonesAt (performMove g position).state g.currentPlayer r.lastPos = 0 ∧
      getStonesAt (performMove g position).state (flipPlayer g.currentPlayer) mirror = 0 ∧
      storeCount (performMove g position).state g.currentPlayer =
        storeCount r.state g.currentPlayer +
          getStonesAt r.state (flipPlayer g.currentPlayer) mirror + 1) ∧
    (¬ (r.lastStoneInMancala = false ∧ r.lastPlayer = g.currentPlayer ∧
        getStonesAt r.state g.currentPlayer r.lastPos = 1 ∧
        0 < getStonesAt r.state (flipPlayer g.currentPlayer) mirror) →
      (performMove g position).state.board1 = r.state.board1 ∧
      (performMove g position).state.board2 = r.state.board2 ∧
      (performMove g position).state.mancala1 = r.state.mancala1 ∧
      (performMove g position).state.mancala2 = r.state.mancala2) := by
  obtain ⟨hpos0, hposP, hposN, hP, hstones⟩ := isValidMove_facts g position hv
  subst hmir
  have hsz : getStonesAt g g.currentPlayer position.toNat ≠ 0 := by omega
  have hdec := sowLoop_eq_sowOnly g.pocketsPerSide g.currentPlayer
    (getStonesAt g g.currentPlayer position.toNat) g.currentPlayer position.toNat
    (setStonesAt g g.currentPlayer position.toNat 0) hsz
  rw [← hr] at hdec
  rw [performMove_valid g position hv]
  dsimp only
  rw [hdec]
  constructor
  · rintro ⟨hb, hlp, h1, h0⟩
    have heff := captureStep_effects g.pocketsPerSide g.currentPlayer r.lastPos r.state
      hcp h1 h0
    simp [hb, hlp, heff.1, heff.2.1, heff.2.2]
  · intro hnot
    cases hbool : r.lastStoneInMancala
    · by_cases hlp : r.lastPlayer = g.currentPlayer
      · have hcd : ¬ (getStonesAt r.state g.currentPlayer r.lastPos = 1 ∧
            0 < getStonesAt r.state (flipPlayer g.currentPlayer)
              (g.pocketsPerSide - 1 - r.lastPos)) := by
          intro hcd2
          exact hnot ⟨hbool, hlp, hcd2.1, hcd2.2⟩
        have hnoop := captureStep_noop g.pocketsPerSide g.currentPlayer r.lastPos r.state hcd
        simp [hbool, hlp, hnoop]
      · simp [hbool, hlp]
    · simp [hbool]

/-- Witness for the amended claim C2: on the two-pit board with rows [1, 0]
and [3, 0], the stone lands in the empty own pit 1, the mirror pit holds 3,
and the capture empties both pits and puts 4 stones in the store of the
mover. -/
theorem claim_C2_amended_witness :
    isValidMove (⟨2, 2, 1, [1, 0], [3, 0], 0, 0⟩ : GameState) 0 = true ∧
    getStonesAt (performMove (⟨2, 2, 1, [1, 0], [3, 0], 0, 0⟩ : GameState) 0).state 1 1 = 0 ∧
    getStonesAt (performMove (⟨2, 2, 1, [1, 0], [3, 0], 0, 0⟩ : GameState) 0).state 2 0 = 0 ∧
    storeCount (performMove (⟨2, 2, 1, [1, 0], [3, 0], 0, 0⟩ : GameState) 0).state 1 = 4 := by
  have h := (claim_C2_capture_amended (⟨2, 2, 1, [1, 0], [3, 0], 0, 0⟩ : GameState) 0
      ⟨⟨2, 2, 1, [0, 1], [3, 0], 0, 0⟩, 1, 1, false, [⟨1, 1, false⟩]⟩ 0
      (by decide) (Or.inl rfl) (by decide) (by decide)).1 (by decide)
  exact ⟨by decide, h.1, h.2.1, h.2.2.trans (by decide)⟩
